import Mathlib

/-!
Verification of core sparv-pipeline annotator logic.

Shallow embedding of the MALT-parser driver (`sparv/modules/malt/malt.py`)
and the lexical-classes annotators
(`sparv/modules/lexical_classes/lexical_classes.py`), together with the
set-encoding and span-grouping helpers they rely on.  Definitions mirror the
Python source; functions that can raise in Python return `Option`, with
`none` standing for a raised exception.
-/

/-- Python list indexing `l[i]` with negative-index wraparound: `l[i]` is
`l[len l + i]` for negative `i`; `none` models an `IndexError`. -/
def pyGet {α : Type} (l : List α) (i : Int) : Option α :=
  if 0 ≤ i then l.get? i.toNat
  else if 0 ≤ (l.length : Int) + i then l.get? ((l.length : Int) + i).toNat
  else none

/-- Python `s.split(d)` for a one-character separator `d`, over the character
list of the string: always returns a non-empty list; `"".split(d) == [""]`. -/
def pySplit : List Char → Char → List (List Char)
  | [], _ => [[]]
  | c :: cs, d =>
    match pySplit cs d with
    | [] => []
    | r :: rs => if c = d then [] :: r :: rs else (c :: r) :: rs

/-- Python `s.join`-style concatenation with a one-character delimiter. -/
def pyJoin (d : Char) : List (List Char) → List Char
  | [] => []
  | [x] => x
  | x :: y :: ys => x ++ d :: pyJoin d (y :: ys)

/-- Python `s.strip(a)` for a one-character strip set: remove all leading and
all trailing occurrences of `a`. -/
def pyStrip (s : List Char) (a : Char) : List Char :=
  ((s.dropWhile (fun c => c = a)).reverse.dropWhile (fun c => c = a)).reverse

/-- Python `s.split(d)` for a one-character separator, as a `String` list. -/
def pySplitStr (s : String) (d : Char) : List String :=
  (pySplit s.toList d).map (fun l => String.mk l)

/-- Python `s.replace(a, b)` for one-character pattern and replacement
(every occurrence of `a` becomes `b`). -/
def pyReplaceChar (s : String) (a b : Char) : String :=
  String.mk (s.toList.map (fun c => if c = a then b else c))

/-- Accumulate the decimal digits of a numeral; `none` on a non-digit. -/
def digitsToNat : List Char → Nat → Option Nat
  | [], acc => some acc
  | c :: cs, acc =>
    if c.isDigit then digitsToNat cs (acc * 10 + (c.toNat - '0'.toNat))
    else none

/-- Python `int(s)` on a plain decimal numeral, possibly with a leading
minus sign; `none` models a raised `ValueError`.  (Python's `int` also
accepts surrounding whitespace, a leading `+` and `_` digit separators;
none of those occur in malt output.) -/
def pyInt (s : String) : Option Int :=
  match s.toList with
  | [] => none
  | '-' :: rest =>
    if rest = [] then none else (digitsToNat rest 0).map (fun n => -(n : Int))
  | l => (digitsToNat l 0).map (fun n => (n : Int))

/-! ## MALT module (`sparv/modules/malt/malt.py`) -/

/-- `RESTART_THRESHOLD_LENGTH` from `malt.py`: persistent malt processes are
only chatted with when the serialized input is shorter than this. -/
def RESTART_THRESHOLD_LENGTH : Nat := 64000

/-- Sentence separator `SENT_SEP = "\n\n"`. -/
def SENT_SEP : String := "\n\n"

/-- Token separator `TOK_SEP = "\n"`. -/
def TOK_SEP : String := "\n"

/-- Tag separator `TAG_SEP = "\t"`. -/
def TAG_SEP : String := "\t"

/-- `HEAD_COLUMN = 6`. -/
def HEAD_COLUMN : Nat := 6

/-- `DEPREL_COLUMN = 7`. -/
def DEPREL_COLUMN : Nat := 7

/-- `UNDEF = "_"`. -/
def UNDEF : String := "_"

/-- The two I/O modes of `maltparse`: chatting with a kept process versus a
one-shot `communicate` call. -/
inductive MaltMode : Type
  | chat
  | block
deriving DecidableEq, Repr

/-- `keep_process = len(stdin) < RESTART_THRESHOLD_LENGTH and process_dict is
not None` (malt.py line 74).  `stdinLen` is the byte length of the serialized
payload; `hasProcessDict` is `process_dict is not None`. -/
def keep_process (stdinLen : Nat) (hasProcessDict : Bool) : Bool :=
  decide (stdinLen < RESTART_THRESHOLD_LENGTH) && hasProcessDict

/-- The I/O mode actually used by `maltparse` (lines 80 and 97). -/
def malt_mode (stdinLen : Nat) (hasProcessDict : Bool) : MaltMode :=
  if keep_process stdinLen hasProcessDict then MaltMode.chat else MaltMode.block

/-- The `restart` flag recorded in `process_dict` (lines 77-78):
`process_dict["restart"] = not keep_process`, set only when a process dict was
supplied; `none` means no flag is recorded anywhere. -/
def restartFlag (stdinLen : Nat) (hasProcessDict : Bool) : Option Bool :=
  if hasProcessDict then some (!keep_process stdinLen hasProcessDict) else none

/-- Observable state of a prior malt process used by the health probe in
`maltparse` (line 48): whether each pipe is closed and the result of
`process.poll()` (`none` = still running, `some c` = exited with code `c`). -/
structure ProcState : Type where
  stdinClosed : Bool
  stdoutClosed : Bool
  poll : Option Int
deriving DecidableEq, Repr

/-- Python truthiness of a `poll()` result: `None` and `0` are falsy. -/
def pollTruthy : Option Int → Bool
  | none => false
  | some c => decide (c ≠ 0)

/-- The condition of line 48:
`process.stdin.closed or process.stdout.closed or process.poll()`.
When it holds the process "seems dead" and is killed and respawned. -/
def probeDead (p : ProcState) : Bool :=
  p.stdinClosed || p.stdoutClosed || pollTruthy p.poll

/-- Result of acquiring a process in `maltparse` (lines 43-51): whether a new
process was spawned, whether the spawn passed `send_empty_sentence=True`
(warm-up sentence sent through `maltstart`), and the prior process if it was
reused. -/
structure AcquireResult : Type where
  spawned : Bool
  warmup : Bool
  reused : Option ProcState
deriving DecidableEq, Repr

/-- Process acquisition in `maltparse` lines 43-51: with no `process_dict` a
fresh process is started via `maltstart(maltjar, model, encoding)` (whose
`send_empty_sentence` parameter defaults to `False`); with a prior process
that fails the health probe, the process is killed and
`maltstart(..., send_empty_sentence=True)` is called; otherwise the prior
process is reused. -/
def maltAcquire (prior : Option ProcState) : AcquireResult :=
  match prior with
  | none => ⟨true, false, none⟩
  | some p =>
    if probeDead p then ⟨true, true, none⟩ else ⟨false, false, some p⟩

/-! ### Chat-mode reading (malt.py lines 80-96)

The response stream is modelled as the list of lines that successive
`readline()` calls return, each including its trailing newline; reading past
the end of the list yields `""` (what `readline` returns at EOF). -/

/-- One `readline()` call on the modelled stream. -/
def readline (ls : List String) : String × List String :=
  match ls with
  | [] => ("", [])
  | l :: rest => (l, rest)

/-- Read `n` lines for the tokens of one sentence (the inner `for _tok in
sent` loop of lines 89-93). -/
def readSentLines : Nat → List String → List String × List String
  | 0, ls => ([], ls)
  | n + 1, ls =>
    let p := readline ls
    let q := readSentLines n p.2
    (p.1 :: q.1, q.2)

/-- The chat-mode read loop of lines 86-96: for each sentence read one line
per token, then one line that is asserted to equal `"\n"`.  `none` models a
failed `assert line == b"\n"`. -/
def maltChatRead (sents : List (List Nat)) (ls : List String) :
    Option (List (List String)) :=
  match sents with
  | [] => some []
  | s :: ss =>
    let p := readSentLines s.length ls
    let q := readline p.2
    if q.1 = "\n" then (maltChatRead ss q.2).map (p.1 :: ·) else none

/-- A response stream in the same line/sentence framing as the request: for
each sentence, its response lines followed by one blank terminator line. -/
def maltFrame (resp : List (List String)) : List String :=
  (resp.map (fun r => r ++ ["\n"])).flatten

/-! ### Per-token response parsing (malt.py lines 108-114) -/

/-- Processing of one malt output token (lines 110-114), starting from the
already-split column list `cols0 = malt_tok.split(TAG_SEP)`:
map `UNDEF` columns to `None`, take column 7 as the dependency relation,
parse column 6 as the head index `h`, and emit
`(deprel, dephead, dephead_ref)` where `dephead = str(sent[h-1])` and
`dephead_ref = ref[sent[h-1]]` for truthy `h`, and `("-", "")` for `h = 0`.
`none` models a raised `IndexError` / `TypeError` / `ValueError`. -/
def processCols (sent : List Nat) (refAnn : List String) (cols0 : List String) :
    Option (Option String × String × String) :=
  let cols : List (Option String) :=
    cols0.map (fun col => if col = UNDEF then none else some col)
  match cols.get? DEPREL_COLUMN with
  | none => none
  | some deprel =>
    match cols.get? HEAD_COLUMN with
    | none => none
    | some none => none
    | some (some hs) =>
      match pyInt hs with
      | none => none
      | some h =>
        if h = 0 then some (deprel, "-", "")
        else
          match pyGet sent (h - 1) with
          | none => none
          | some ti =>
            match pyGet refAnn (ti : Int) with
            | none => none
            | some r => some (deprel, toString ti, r)

/-- Processing of one malt output token from its raw line:
`cols = malt_tok.split(TAG_SEP)` followed by `processCols`. -/
def processTok (sent : List Nat) (refAnn : List String) (tok : String) :
    Option (Option String × String × String) :=
  processCols sent refAnn (pySplitStr tok '\t')

/-! ## Lexical classes module (`sparv/modules/lexical_classes/lexical_classes.py`) -/

/-- The `while` loop of `annotate_words` lines 129-131: starting from the
current single retained tuple `cur`, keep replacing it with the next tuple as
long as that tuple's score string equals the current one's. -/
def wsdLoop : String × String → List (String × String) → String × String
  | cur, [] => cur
  | cur, t :: ts => if t.2 = cur.2 then wsdLoop t ts else cur

/-- Lines 127-133 of `annotate_words` (`disambiguate` branch): take the first
tuple, then run the while loop; the retained list always has exactly one
element.  An empty tuple list cannot occur in the source (the split result is
never empty). -/
def disambiguate_ids (tuples : List (String × String)) : List (String × String) :=
  match tuples with
  | [] => []
  | t :: ts => [wsdLoop t ts]

/-- The `saldo_ids` computed by the WSD branch of `annotate_words`
(lines 116-133) from the parsed `(id, score)` tuples: with
`disambiguate=False` all ids, otherwise the single id retained by the loop. -/
def saldo_ids_wsd (tuples : List (String × String)) (disambiguate : Bool) :
    List String :=
  if disambiguate then (disambiguate_ids tuples).map (fun i => i.1)
  else tuples.map (fun i => i.1)

/-- A Blingbring lexicon entry: the per-sense dict
`{class_set: set-of-labels}`, modelled as an association list in insertion
order (iterating the dict yields the keys, i.e. the first components). -/
def BBEntry : Type := List (String × List String)

/-- String sort used for Python's `sorted` on strings. -/
def sortedStrings (l : List String) : List String :=
  l.mergeSort (fun a b => decide (a ≤ b))

/-- `annotate_bring` (lines 40-48): union over the saldo ids of the lexicon
hits; `lexicon.lookup(sid, default=...)` is `List.lookup` with a default, and
a missing `class_set` key defaults to the empty set.  With `connect_IDs` the
iteration is over the keys of the entry dict, each suffixed with
`scoresep + sid`.  `saldo_ids = none` models `saldo_ids = None`, for which
the `if saldo_ids:` guard skips the loop.  The result is `sorted(rogetid)`;
duplicates are collapsed since `rogetid` is a Python set. -/
def annotate_bring (class_set : String) (saldo_ids : Option (List String))
    (lexicon : List (String × BBEntry)) (connect_IDs : Bool)
    (scoresep : String) : List String :=
  let rogetid : List String :=
    match saldo_ids with
    | none => []
    | some sids =>
      sids.foldl (fun acc sid =>
        if connect_IDs then
          acc ++ (((lexicon.lookup sid).getD []).map
            (fun i => i.1 ++ scoresep ++ sid))
        else
          acc ++ ((((lexicon.lookup sid).getD []).lookup class_set).getD []))
        []
  sortedStrings rogetid.dedup

/-- The dominance computation of `annotate_doc` (lines 198-206): for each
class `c` with raw count `f`, `rel = f / len(words)` and
`score = rel / freq_model.lookup(c.replace("_", " "), 0)`.  A class missing
from the reference model yields `ref_freq = 0`, an error is logged, and the
division raises `ZeroDivisionError`, modelled as `none`. -/
def dominance (freqs : List (String × Nat)) (wordsLen : Nat)
    (freq_model : List (String × Rat)) : Option (List (String × Rat)) :=
  freqs.foldr (fun cf acc =>
    match acc with
    | none => none
    | some rest =>
      let rel : Rat := (cf.2 : Rat) / (wordsLen : Rat)
      let ref_freq : Rat := (freq_model.lookup (pyReplaceChar cf.1 '_' ' ')).getD 0
      if ref_freq = 0 then none else some ((cf.1, rel / ref_freq) :: rest))
    (some [])

/-- `sorted(class_freqs.items(), key=lambda x: x[1], reverse=True)`
(line 209): a stable descending sort on the score. -/
def sortDesc (freqs : List (String × Nat)) : List (String × Nat) :=
  freqs.mergeSort (fun a b => decide (b.2 ≤ a.2))

/-- The entries remaining after the descending sort and the hapax filter
`[w for w in ordered_words if w[1] > 1]` (lines 209 and 215) when no
reference model is supplied. -/
def remainingNoModel (freqs : List (String × Nat)) : List (String × Nat) :=
  (sortDesc freqs).filter (fun w => decide (1 < w.2))

/-- The ranking of `annotate_doc` without a reference model
(lines 208-219): sort descending, drop count-1 entries, and if more than
`cutoff` entries remain keep exactly those with score at least
`ordered_words[cutoff - 1][1]`.  `cutoff` is a Python `int`, so the index
`cutoff - 1` uses Python indexing; `none` models an `IndexError`. -/
def annotate_doc_rank (freqs : List (String × Nat)) (cutoff : Int) :
    Option (List (String × Nat)) :=
  let filtered := remainingNoModel freqs
  if (filtered.length : Int) > cutoff then
    match pyGet filtered (cutoff - 1) with
    | none => none
    | some piv => some (filtered.filter (fun w => decide (piv.2 ≤ w.2)))
  else some filtered

/-! ## Set encoding (SetEncoder)

`decode` is the idiom used throughout `lexical_classes.py`
(lines 117-118, 136-137, 194):
`raw.strip(AFFIX).split(DELIM) if raw != AFFIX else None`.
Strings are modelled as lists of characters so that Python's `str.strip`
(which removes ALL leading and trailing affix characters) and single-character
`str.split` can be given exact executable counterparts
(`pyStrip`, `pySplit`, `pyJoin` above). -/

/-- Modelled from the spec: `encode(values, delimiter, affix)` of the
SetEncoder (`util.cwbset`, not part of the sources under verification):
"empty input encodes to the bare `affix+affix` marker; non-empty input
encodes to `affix + join(values, delimiter) + affix`". -/
def encodeSet (values : List (List Char)) (delimiter affix : Char) : List Char :=
  match values with
  | [] => [affix, affix]
  | _ => affix :: pyJoin delimiter values ++ [affix]

/-- The decode idiom from the source (`lexical_classes.py` line 136-137):
`raw.strip(affix).split(delimiter) if raw != affix else None`; the `None`
case (the canonical empty marker, a bare affix) is modelled as `none`. -/
def decodeSet (raw : List Char) (delimiter affix : Char) :
    Option (List (List Char)) :=
  if raw = [affix] then none
  else some (pySplit (pyStrip raw affix) delimiter)

/-! ## Span grouping (SpanAligner) -/

/-- A half-open text span `[start, stop)`. -/
structure Span : Type where
  start : Nat
  stop : Nat
deriving DecidableEq, Repr

/-- Modelled from the spec: `util.get_children` is not part of the sources
under verification; per §4.3 each child is assigned to the parent whose range
contains the child's start offset (half-open containment
`parent.start <= child.start < parent.end`).  This returns the index of the
first such parent. -/
def assignParent (parents : List Span) (c : Span) : Option Nat :=
  parents.findIdx? (fun p => decide (p.start ≤ c.start) && decide (c.start < p.stop))

/-- Modelled from the spec: `groupChildren` of §4.3 — children grouped under
the parent containing their start offset, preserving order, with unowned
children collected in order as orphans. -/
def groupChildren (parents children : List Span) :
    List (List Nat) × List Nat :=
  ((List.range parents.length).map (fun j =>
      ((children.enum.filter (fun ic => assignParent parents ic.2 = some j)).map
        (fun ic => ic.1))),
   (children.enum.filter (fun ic => assignParent parents ic.2 = none)).map
     (fun ic => ic.1))

/-- Lines 53-54 of `malt.py`: `sentences, orphans = util.get_children(...)`
followed by `sentences.append(orphans)` — the orphan tokens become one extra
final sentence group. -/
def maltSentences (parents children : List Span) : List (List Nat) :=
  (groupChildren parents children).1 ++ [(groupChildren parents children).2]

/-! ## Claims -/

/-- Helper for C4: the retained tuple is the last element of the leading run
of tuples whose score string equals the first tuple's score. -/
theorem wsdLoop_eq_getLastD (t : String × String) (ts : List (String × String)) :
    wsdLoop t ts = (ts.takeWhile (fun u => u.2 == t.2)).getLastD t := by
  induction ts generalizing t with
  | nil => rfl
  | cons u us ih =>
    by_cases h : u.2 = t.2
    · have hb : (u.2 == t.2) = true := by simp [h]
      have hpred : (fun v : String × String => v.2 == t.2) =
          (fun v : String × String => v.2 == u.2) := by
        funext v
        rw [h]
      rw [wsdLoop, if_pos h, List.takeWhile_cons, hb, if_pos rfl,
        List.getLastD_cons, hpred]
      exact ih u
    · have hb : (u.2 == t.2) = false := by simp [h]
      rw [wsdLoop, if_neg h, List.takeWhile_cons, hb]
      simp

/-- C4 (amended): with `disambiguate=true` the WSD branch of `annotate_words`
retains exactly one id — the id of the last tuple in the leading run of
consecutive equal scores — not the whole tied run; with `disambiguate=false`
it retains all ids in order. -/
theorem annotate_words_wsd_single_id (t : String × String)
    (ts : List (String × String)) :
    saldo_ids_wsd (t :: ts) true =
      [((ts.takeWhile (fun u => u.2 == t.2)).getLastD t).1] ∧
    saldo_ids_wsd (t :: ts) false = (t :: ts).map (fun i => i.1) := by
  constructor
  · simp [saldo_ids_wsd, disambiguate_ids, wsdLoop_eq_getLastD]
  · simp [saldo_ids_wsd]

/-- C4 (counterexample): on the spec's own example
`[(a, 0.9), (b, 0.9), (c, 0.5)]` the disambiguating branch yields `["b"]`,
not the full tied run `["a", "b"]`; without disambiguation it yields all
three ids. -/
theorem annotate_words_wsd_cex :
    saldo_ids_wsd [("a", "0.9"), ("b", "0.9"), ("c", "0.5")] true = ["b"] ∧
    ["b"] ≠ ["a", "b"] ∧
    saldo_ids_wsd [("a", "0.9"), ("b", "0.9"), ("c", "0.5")] false
      = ["a", "b", "c"] := by
  refine ⟨by decide, by decide, by decide⟩

/-- C1 (amended): `maltparse` uses chat mode with a recorded
`restart = False` exactly when the payload is strictly below the restart
threshold and a process dict was supplied; in every other case it uses block
mode, and the restart flag is recorded as `True` when a process dict was
supplied and is not recorded at all otherwise. -/
theorem malt_mode_switch (l : Nat) (d : Bool) :
    ((malt_mode l d = MaltMode.chat ∧ restartFlag l d = some false) ↔
      (l < RESTART_THRESHOLD_LENGTH ∧ d = true)) ∧
    (¬(l < RESTART_THRESHOLD_LENGTH ∧ d = true) →
      malt_mode l d = MaltMode.block ∧
        restartFlag l d = (if d then some true else none)) := by
  by_cases h : l < RESTART_THRESHOLD_LENGTH <;>
    cases d <;>
      simp [malt_mode, restartFlag, keep_process, h]

/-- C1 (counterexample): a call with no process dict (`process_dict is
None`) is in the claim's "every other case", uses block mode, but records no
`shouldReplace = true` flag anywhere: `maltparse` only writes
`process_dict["restart"]` when a process dict exists. -/
theorem malt_mode_switch_cex :
    ¬(0 < RESTART_THRESHOLD_LENGTH ∧ false = true) ∧
    malt_mode 0 false = MaltMode.block ∧
    restartFlag 0 false = none ∧ restartFlag 0 false ≠ some true := by
  refine ⟨by decide, by decide, by decide, by decide⟩

/-- C1 (witness): an over-threshold payload with a supplied process dict
takes block mode and records `restart = True`. -/
theorem malt_mode_switch_witness :
    malt_mode 64000 true = MaltMode.block ∧
    restartFlag 64000 true = some true := by
  have h := (malt_mode_switch 64000 true).2 (by decide)
  exact ⟨h.1, h.2⟩

/-- C6 (amended): only the respawn that replaces a prior process failing the
health probe passes `send_empty_sentence=True`; the initial spawn performed
when no prior session exists calls `maltstart` with its default
`send_empty_sentence=False` and sends no warm-up sentence. -/
theorem maltAcquire_warmup (p : ProcState) :
    maltAcquire none = ⟨true, false, none⟩ ∧
    (probeDead p = true → maltAcquire (some p) = ⟨true, true, none⟩) := by
  refine ⟨rfl, fun h => ?_⟩
  simp [maltAcquire, h]

/-- C6 (witness): a prior process with a closed stdin pipe fails the probe
and is replaced by a spawn with forced warm-up. -/
theorem maltAcquire_warmup_witness :
    probeDead ⟨true, false, none⟩ = true ∧
    maltAcquire (some ⟨true, false, none⟩) = ⟨true, true, none⟩ :=
  ⟨by decide, (maltAcquire_warmup ⟨true, false, none⟩).2 (by decide)⟩

/-- C6 (counterexample): the first spawn, with no prior session
(`process_dict is None`), spawns a process but does not send the warm-up
sentence, refuting "every fresh spawn" sends one. -/
theorem maltAcquire_fresh_no_warmup_cex :
    (maltAcquire none).spawned = true ∧ (maltAcquire none).warmup = false := by
  refine ⟨by decide, by decide⟩

/-- C7 (code bug): the health probe tests the truthiness of
`process.poll()`, so a process that has exited cleanly with return code `0`
(pipes still open) passes the probe and is reused, although it has exited —
contradicting the probe's stated purpose ("If process seems dead, spawn a
new"). -/
theorem malt_probe_exit0_reused :
    probeDead ⟨false, false, some 0⟩ = false ∧
    maltAcquire (some ⟨false, false, some 0⟩) =
      ⟨false, false, some ⟨false, false, some 0⟩⟩ ∧
    (⟨false, false, some 0⟩ : ProcState).poll ≠ none := by
  refine ⟨by decide, by decide, by decide⟩

/-- Helper for C2: reading as many lines as a prefix has elements consumes
exactly that prefix. -/
theorem readSentLines_append (r rest : List String) :
    readSentLines r.length (r ++ rest) = (r, rest) := by
  induction r with
  | nil => rfl
  | cons l ls ih =>
    simp [readSentLines, readline, ih]

/-- C2 (confirmed): if the engine's response stream uses the same
line/sentence framing as the request — for each unit, one line per member
followed by one blank terminator line — then the chat-mode read loop returns
exactly the per-unit response lines and every `assert line == b"\n"` check
succeeds, whatever data follows the framed response. -/
theorem maltChatRead_framed (sents : List (List Nat))
    (resp : List (List String)) (extra : List String)
    (h : resp.map List.length = sents.map List.length) :
    maltChatRead sents (maltFrame resp ++ extra) = some resp := by
  induction sents generalizing resp extra with
  | nil =>
    cases resp with
    | nil => rfl
    | cons r rs => simp at h
  | cons s ss ih =>
    cases resp with
    | nil => simp at h
    | cons r rs =>
      simp only [List.map_cons, List.cons.injEq] at h
      have hframe : maltFrame (r :: rs) ++ extra
          = r ++ ("\n" :: (maltFrame rs ++ extra)) := by
        simp [maltFrame]
      rw [maltChatRead, hframe, ← h.1, readSentLines_append]
      simp only [readline]
      rw [if_pos trivial, ih rs extra h.2]
      rfl

/-- C2 (witness): a two-unit batch with member counts 2 and 1 against a
correspondingly framed response. -/
theorem maltChatRead_framed_witness :
    [["x\n", "y\n"], ["z\n"]].map List.length
        = [[0, 1], [5]].map List.length ∧
    maltChatRead [[0, 1], [5]] (maltFrame [["x\n", "y\n"], ["z\n"]] ++ []) =
      some [["x\n", "y\n"], ["z\n"]] :=
  ⟨by decide, maltChatRead_framed [[0, 1], [5]] [["x\n", "y\n"], ["z\n"]] []
    (by decide)⟩

/-- C3 (confirmed): for a malt output token whose head column holds the
numeral of `h` and whose deprel column holds `rel`, a head value of `0`
yields the "no head" markers (`"-"` for dephead, `""` for dephead_ref), and a
non-zero in-range head `h` yields the `h`-th token of the sentence,
`sent[h-1]`, as dephead and its `ref` value as dephead_ref; in both cases the
deprel output receives `rel` with the placeholder `"_"` mapped to `None`. -/
theorem maltparse_head_mapping (sent : List Nat) (refAnn : List String)
    (cols0 : List String) (hs rel : String) (h : Int)
    (hhead : cols0.get? HEAD_COLUMN = some hs)
    (hhs : hs ≠ UNDEF)
    (hparse : pyInt hs = some h)
    (hrel : cols0.get? DEPREL_COLUMN = some rel) :
    (h = 0 → processCols sent refAnn cols0 =
      some (if rel = UNDEF then none else some rel, "-", "")) ∧
    (∀ ti : Nat, 1 ≤ h → sent.get? (h - 1).toNat = some ti →
      ti < refAnn.length →
      processCols sent refAnn cols0 =
        some (if rel = UNDEF then none else some rel,
          toString ti, refAnn.getD ti "")) := by
  have hmap1 : (cols0.map
      (fun col => if col = UNDEF then none else some col)).get? DEPREL_COLUMN
      = some (if rel = UNDEF then none else some rel) := by
    rw [List.get?_map, hrel]
    rfl
  have hmap2 : (cols0.map
      (fun col => if col = UNDEF then none else some col)).get? HEAD_COLUMN
      = some (some hs) := by
    rw [List.get?_map, hhead]
    simp [hhs]
  constructor
  · intro h0
    subst h0
    rw [processCols, hmap1, hmap2]
    dsimp only
    rw [hparse]
    rfl
  · intro ti h1 hti href
    have hne : h ≠ 0 := by omega
    have hnn : (0 : Int) ≤ h - 1 := by omega
    have hpy : pyGet sent (h - 1) = some ti := by
      rw [pyGet, if_pos hnn, hti]
    have hr : refAnn.get? ti = some (refAnn.getD ti "") := by
      rw [List.getD_eq_get?]
      cases hg : refAnn.get? ti with
      | none =>
        rw [List.get?_eq_none] at hg
        omega
      | some v => rfl
    have hpyr : pyGet refAnn (ti : Int) = some (refAnn.getD ti "") := by
      rw [pyGet, if_pos (by positivity)]
      simpa using hr
    rw [processCols, hmap1, hmap2]
    dsimp only
    rw [hparse]
    dsimp only
    rw [if_neg hne, hpy]
    dsimp only
    rw [hpyr]

/-- C3 (witness): a 10-column token line with head `2` and deprel `"SS"` in
a 2-token sentence: dephead is the second token's span index `1` and
dephead_ref its `ref` value `"2"`. -/
theorem maltparse_head_mapping_witness :
    processCols [0, 1] ["1", "2"]
      ["1", "w", "_", "N", "N", "f", "2", "SS", "_", "_"] =
      some (some "SS", "1", "2") := by
  have hm := (maltparse_head_mapping [0, 1] ["1", "2"]
    ["1", "w", "_", "N", "N", "f", "2", "SS", "_", "_"] "2" "SS" 2
    (by decide) (by decide) (by decide) (by decide)).2 1
    (by decide) (by decide) (by decide)
  exact hm.trans (by decide)

/-- Helper for C8: the accumulating loop of `annotate_bring` adds nothing
for saldo ids that are absent from the lexicon. -/
theorem bring_fold_const (class_set scoresep : String)
    (lexicon : List (String × BBEntry)) (connect_IDs : Bool)
    (sids : List String) (acc : List String)
    (hmiss : ∀ sid ∈ sids, lexicon.lookup sid = none) :
    sids.foldl (fun acc sid =>
      if connect_IDs then
        acc ++ (((lexicon.lookup sid).getD []).map
          (fun i => i.1 ++ scoresep ++ sid))
      else
        acc ++ ((((lexicon.lookup sid).getD []).lookup class_set).getD []))
      acc = acc := by
  induction sids generalizing acc with
  | nil => rfl
  | cons sid rest ih =>
    have h0 : lexicon.lookup sid = none := hmiss sid (by simp)
    have hstep : (if connect_IDs then
        acc ++ (((lexicon.lookup sid).getD []).map
          (fun i => i.1 ++ scoresep ++ sid))
      else
        acc ++ ((((lexicon.lookup sid).getD []).lookup class_set).getD []))
        = acc := by
      rw [h0]
      cases connect_IDs <;> simp [BBEntry]
    rw [List.foldl_cons, hstep]
    exact ih acc (fun s hs => hmiss s (by simp [hs]))

/-- C8 (amended): a lookup key absent from the lexicon is non-fatal for the
token-level class annotation and contributes an empty class result
(`annotate_bring` over only-missing ids returns the empty list); but during
dominance scoring a class label absent from the reference-frequency model
makes the lookup default to `0` and the subsequent division raise a
`ZeroDivisionError` (modelled as `none`) that propagates out of
`annotate_doc`. -/
theorem lexicon_missing_key :
    (∀ (class_set scoresep : String) (sids : List String)
        (lexicon : List (String × BBEntry)) (connect_IDs : Bool),
      (∀ sid ∈ sids, lexicon.lookup sid = none) →
      annotate_bring class_set (some sids) lexicon connect_IDs scoresep = []) ∧
    (∀ (freqs : List (String × Nat)) (wordsLen : Nat)
        (freq_model : List (String × Rat)) (c : String) (f : Nat),
      (c, f) ∈ freqs →
      freq_model.lookup (pyReplaceChar c '_' ' ') = none →
      dominance freqs wordsLen freq_model = none) := by
  constructor
  · intro class_set scoresep sids lexicon connect_IDs hmiss
    rw [annotate_bring]
    rw [bring_fold_const class_set scoresep lexicon connect_IDs sids [] hmiss]
    simp [sortedStrings]
  · intro freqs wordsLen freq_model c f hmem hmiss
    induction freqs with
    | nil => simp at hmem
    | cons cf tl ih =>
      rw [dominance, List.foldr_cons]
      rcases List.mem_cons.mp hmem with hhd | htl
      · have hz : ((freq_model.lookup (pyReplaceChar cf.1 '_' ' ')).getD 0
            : Rat) = 0 := by
          rw [← hhd]
          show ((freq_model.lookup (pyReplaceChar c '_' ' ')).getD 0
            : Rat) = 0
          rw [hmiss]
          rfl
        cases hacc : List.foldr (fun cf acc =>
            match acc with
            | none => none
            | some rest =>
              let rel : Rat := (cf.2 : Rat) / (wordsLen : Rat)
              let ref_freq : Rat :=
                (freq_model.lookup (pyReplaceChar cf.1 '_' ' ')).getD 0
              if ref_freq = 0 then none
              else some ((cf.1, rel / ref_freq) :: rest)) (some []) tl with
        | none => rfl
        | some rest =>
          dsimp only
          rw [if_pos hz]
      · have htail := ih htl
        rw [dominance] at htail
        rw [htail]

/-- C8 (witness): two ids absent from an empty lexicon annotate to the empty
class list; a count for a class absent from an empty reference model makes
the dominance computation raise. -/
theorem lexicon_missing_key_witness :
    annotate_bring "bring" (some ["s1", "s2"]) [] false ":" = [] ∧
    dominance [("Y", 3)] 5 [] = none :=
  ⟨lexicon_missing_key.1 "bring" ":" ["s1", "s2"] [] false (by simp),
   lexicon_missing_key.2 [("Y", 3)] 5 [] "Y" 3 (by simp) (by simp)⟩

/-- C8 (counterexample): with a reference model present, a class label
absent from it is fatal — the annotation operation raises
(`ZeroDivisionError` after the lookup defaults to 0), modelled by `none`,
instead of producing an empty-class result. -/
theorem dominance_missing_class_cex :
    dominance [("X", 2)] 4 [] = none := by decide

/-- Helper for C5: the descending sort is sorted (non-increasing scores). -/
theorem sortDesc_pairwise (freqs : List (String × Nat)) :
    (sortDesc freqs).Pairwise (fun a b => b.2 ≤ a.2) := by
  have h := @List.sorted_mergeSort (String × Nat)
    (fun a b => decide (b.2 ≤ a.2))
    (fun a b c h1 h2 => by
      have h1' := of_decide_eq_true h1
      have h2' := of_decide_eq_true h2
      exact decide_eq_true (le_trans h2' h1'))
    (fun a b => by
      rcases Nat.le_total a.2 b.2 with h | h <;> simp [h])
    freqs
  exact h.imp (fun hab => of_decide_eq_true hab)

/-- Helper for C5: the hapax-filtered sorted list is still sorted. -/
theorem remainingNoModel_pairwise (freqs : List (String × Nat)) :
    (remainingNoModel freqs).Pairwise (fun a b => b.2 ≤ a.2) :=
  (sortDesc_pairwise freqs).filter _

/-- Helper for C5: in a non-increasing list the last element's score bounds
every element's score from below. -/
theorem pairwise_getLastD_le (l : List (String × Nat)) (d : String × Nat)
    (hp : l.Pairwise (fun a b => b.2 ≤ a.2)) :
    ∀ x ∈ l, (l.getLastD d).2 ≤ x.2 := by
  induction l generalizing d with
  | nil => intro x hx; simp at hx
  | cons a t ih =>
    intro x hx
    rw [List.getLastD_cons]
    rcases List.mem_cons.mp hx with rfl | hxt
    · cases t with
      | nil => exact le_refl _
      | cons b t' =>
        rw [List.getLastD_cons]
        exact (List.pairwise_cons.mp hp).1 _ (List.getLastD_mem_cons t' b)
    · exact ih a (List.Pairwise.of_cons hp) x hxt

/-- Helper for C5: `getD` at the last position is `getLastD`. -/
theorem getD_length_sub_one (l : List (String × Nat)) (d : String × Nat) :
    l.getD (l.length - 1) d = l.getLastD d := by
  rw [List.getD_eq_getElem?_getD, List.getLastD_eq_getLast?,
    List.getLast?_eq_getElem?]

/-- C5 (confirmed): without a reference model, `annotate_doc` drops count-1
entries (hapax filter), sorts the rest descending by count, and retains
exactly the entries whose score is at least the `k`-th remaining score for
`k = min(cutoff, number remaining)` — tie-inclusive, so the result may
exceed `cutoff` entries. -/
theorem annotate_doc_cutoff (freqs : List (String × Nat)) (cutoff : Int)
    (hc : 1 ≤ cutoff) (hne : remainingNoModel freqs ≠ []) :
    annotate_doc_rank freqs cutoff =
      some ((remainingNoModel freqs).filter (fun w =>
        decide (((remainingNoModel freqs).getD
          ((min cutoff ((remainingNoModel freqs).length : Int)).toNat - 1)
          ("", 0)).2 ≤ w.2))) := by
  have hn : 0 < (remainingNoModel freqs).length := List.length_pos.mpr hne
  rw [annotate_doc_rank]
  by_cases hcase : cutoff < ((remainingNoModel freqs).length : Int)
  · have hmin : min cutoff ((remainingNoModel freqs).length : Int) = cutoff :=
      min_eq_left (le_of_lt hcase)
    have hidx : cutoff.toNat - 1 < (remainingNoModel freqs).length := by omega
    have htn : (cutoff - 1).toNat = cutoff.toNat - 1 := by omega
    have hpy : pyGet (remainingNoModel freqs) (cutoff - 1) =
        some ((remainingNoModel freqs).getD (cutoff.toNat - 1) ("", 0)) := by
      rw [pyGet, if_pos (by omega : (0 : Int) ≤ cutoff - 1), htn]
      rw [List.getD_eq_getElem?_getD]
      cases hg : (remainingNoModel freqs).get? (cutoff.toNat - 1) with
      | none =>
        rw [List.get?_eq_none] at hg
        omega
      | some v =>
        rw [List.get?_eq_getElem?] at hg
        rw [hg]
        rfl
    rw [if_pos (by exact_mod_cast hcase), hpy, hmin]
  · have hle : ((remainingNoModel freqs).length : Int) ≤ cutoff := by omega
    have hmin : min cutoff ((remainingNoModel freqs).length : Int) =
        ((remainingNoModel freqs).length : Int) := min_eq_right hle
    rw [if_neg (by omega), hmin]
    have hfix : (((remainingNoModel freqs).length : Int)).toNat - 1 =
        (remainingNoModel freqs).length - 1 := by omega
    rw [hfix, getD_length_sub_one]
    have hall : ∀ x ∈ remainingNoModel freqs,
        (decide (((remainingNoModel freqs).getLastD ("", 0)).2 ≤ x.2)) = true :=
      fun x hx => decide_eq_true
        (pairwise_getLastD_le (remainingNoModel freqs) ("", 0)
          (remainingNoModel_pairwise freqs) x hx)
    rw [List.filter_eq_self.mpr hall]

unseal List.merge List.mergeSort in
/-- C5 (witness): the spec's example — counts `{A:5, B:3, C:3, D:1}` with
`cutoff = 2`: the hapax filter drops `D`, the 2nd score (3) is tied between
`B` and `C`, and all three of `A`, `B`, `C` are retained. -/
theorem annotate_doc_cutoff_witness :
    annotate_doc_rank [("A", 5), ("B", 3), ("C", 3), ("D", 1)] 2 =
      some [("A", 5), ("B", 3), ("C", 3)] := by
  have h := annotate_doc_cutoff [("A", 5), ("B", 3), ("C", 3), ("D", 1)] 2
    (by decide) (by decide)
  exact h.trans (by decide)

/-- Helper for C9: splitting a delimiter-free string yields that string as
the only piece. -/
theorem pySplit_delimFree (x : List Char) (d : Char) (hx : d ∉ x) :
    pySplit x d = [x] := by
  induction x with
  | nil => rfl
  | cons c cs ih =>
    have hc : c ≠ d := fun e => hx (by simp [e])
    have hcs : d ∉ cs := fun e => hx (by simp [e])
    rw [pySplit, ih hcs]
    simp [hc]

/-- Helper for C9: `pySplit` never returns the empty list (Python's
`str.split` always yields at least one piece). -/
theorem pySplit_ne_nil (t : List Char) (d : Char) : pySplit t d ≠ [] := by
  induction t with
  | nil => simp [pySplit]
  | cons c cs ih =>
    rw [pySplit]
    cases h2 : pySplit cs d with
    | nil => exact absurd h2 ih
    | cons r rs => by_cases hcd : c = d <;> simp [hcd]

/-- Helper for C9: splitting consumes a delimiter-free prefix up to the
first delimiter. -/
theorem pySplit_append (x t : List Char) (d : Char) (hx : d ∉ x) :
    pySplit (x ++ d :: t) d = x :: pySplit t d := by
  induction x with
  | nil =>
    rw [List.nil_append, pySplit]
    cases hs : pySplit t d with
    | nil => exact absurd hs (pySplit_ne_nil t d)
    | cons r rs => simp
  | cons c cs ih =>
    have hc : c ≠ d := fun e => hx (by simp [e])
    have hcs : d ∉ cs := fun e => hx (by simp [e])
    rw [List.cons_append, pySplit, ih hcs]
    simp [hc]

/-- Helper for C9: splitting the join of non-empty delimiter-free pieces
recovers the pieces. -/
theorem pySplit_pyJoin (d : Char) (S : List (List Char)) (hne : S ≠ [])
    (hfree : ∀ x ∈ S, d ∉ x) : pySplit (pyJoin d S) d = S := by
  induction S with
  | nil => exact absurd rfl hne
  | cons x S' ih =>
    cases S' with
    | nil => exact pySplit_delimFree x d (hfree x (by simp))
    | cons y ys =>
      rw [pyJoin, pySplit_append x _ d (hfree x (by simp))]
      rw [ih (by simp) (fun z hz => hfree z (by simp [hz]))]

/-- Helper for C9: `dropWhile` is the identity on a list not starting with
the dropped character. -/
theorem dropWhile_eq_self_of_head? (l : List Char) (a : Char)
    (h : l.head? ≠ some a) : l.dropWhile (fun c => decide (c = a)) = l := by
  cases l with
  | nil => rfl
  | cons b rest =>
    have hb : b ≠ a := fun e => h (by simp [e])
    rw [List.dropWhile_cons, if_neg (by simp [hb])]

/-- Helper for C9: stripping all affix characters from
`affix + body + affix` yields `body` when `body` neither starts nor ends
with the affix character. -/
theorem pyStrip_wrap (body : List Char) (a : Char)
    (h1 : body.head? ≠ some a) (h2 : body.getLast? ≠ some a) :
    pyStrip (a :: (body ++ [a])) a = body := by
  cases body with
  | nil => simp [pyStrip, List.dropWhile_cons]
  | cons b rest =>
    have hb : b ≠ a := fun e => h1 (by simp [e])
    have hA : List.dropWhile (fun c => decide (c = a))
        (a :: ((b :: rest) ++ [a])) = (b :: rest) ++ [a] := by
      rw [List.dropWhile_cons, if_pos (by simp), List.cons_append,
        List.dropWhile_cons, if_neg (by simp [hb]), ← List.cons_append]
    rw [pyStrip, hA, List.reverse_append, show ([a] : List Char).reverse = [a]
      from rfl, List.singleton_append, List.dropWhile_cons, if_pos (by simp)]
    rw [dropWhile_eq_self_of_head? _ a (by rw [List.head?_reverse]; exact h2)]
    exact List.reverse_reverse _

/-- Helper for C9: the join of a non-empty first piece starts with that
piece's first character. -/
theorem head?_pyJoin (d : Char) (x : List Char) (xs : List (List Char))
    (hx : x ≠ []) : (pyJoin d (x :: xs)).head? = x.head? := by
  cases xs with
  | nil => rfl
  | cons y ys =>
    cases x with
    | nil => exact absurd rfl hx
    | cons c cs => rfl

/-- Helper for C9: the join of non-empty pieces ends with the last piece's
last character. -/
theorem getLast?_pyJoin (d : Char) (S : List (List Char)) (hne : S ≠ [])
    (hfull : ∀ x ∈ S, x ≠ []) :
    (pyJoin d S).getLast? = (S.getLastD []).getLast? := by
  induction S with
  | nil => exact absurd rfl hne
  | cons x S' ih =>
    cases S' with
    | nil => rfl
    | cons y ys =>
      have hy : y ≠ [] := hfull y (by simp)
      have hj : pyJoin d (y :: ys) ≠ [] := by
        intro h
        have := head?_pyJoin d y ys hy
        rw [h] at this
        cases y with
        | nil => exact hy rfl
        | cons c cs => simp at this
      rw [pyJoin, List.getLast?_append_of_ne_nil x (by simp)]
      obtain ⟨m, ms, hm⟩ : ∃ m ms, pyJoin d (y :: ys) = m :: ms := by
        cases hj2 : pyJoin d (y :: ys) with
        | nil => exact absurd hj2 hj
        | cons m ms => exact ⟨m, ms, rfl⟩
      rw [hm, List.getLast?_cons_cons, ← hm,
        ih (List.cons_ne_nil y ys) (fun z hz => hfull z (by simp [hz]))]
      rw [List.getLastD_cons, List.getLastD_cons, List.getLastD_cons]

/-- C9 (amended): for every NON-EMPTY sequence `S` of NON-EMPTY strings
containing neither the delimiter nor the affix character, decoding the
canonical encoding of `S` returns `S` itself. -/
theorem decode_encodeSet (S : List (List Char)) (delimiter affix : Char)
    (hne : S ≠ [])
    (helts : ∀ x ∈ S, x ≠ [] ∧ delimiter ∉ x ∧ affix ∉ x) :
    decodeSet (encodeSet S delimiter affix) delimiter affix = some S := by
  cases S with
  | nil => exact absurd rfl hne
  | cons x S' =>
    have hx := helts x (by simp)
    have henc : encodeSet (x :: S') delimiter affix
        = affix :: (pyJoin delimiter (x :: S') ++ [affix]) := rfl
    have hguard : encodeSet (x :: S') delimiter affix ≠ [affix] := by
      rw [henc]
      intro h
      have hlen := congrArg List.length h
      simp at hlen
    have hhead : (pyJoin delimiter (x :: S')).head? ≠ some affix := by
      rw [head?_pyJoin delimiter x S' hx.1]
      cases x with
      | nil => exact absurd rfl hx.1
      | cons c cs =>
        simp only [List.head?_cons, ne_eq, Option.some.injEq]
        intro hc
        exact hx.2.2 (by rw [← hc]; simp)
    have hlast : (pyJoin delimiter (x :: S')).getLast? ≠ some affix := by
      rw [getLast?_pyJoin delimiter (x :: S') (List.cons_ne_nil x S')
        (fun z hz => (helts z hz).1)]
      rw [List.getLastD_cons]
      intro h
      obtain ⟨hne3, heq⟩ :=
        List.mem_getLast?_eq_getLast (Option.mem_def.mpr h)
      have hmem : affix ∈ S'.getLastD x := by
        rw [heq]
        exact List.getLast_mem hne3
      exact (helts _ (List.getLastD_mem_cons S' x)).2.2 hmem
    rw [decodeSet, if_neg hguard, henc,
      pyStrip_wrap _ affix hhead hlast,
      pySplit_pyJoin delimiter (x :: S') (List.cons_ne_nil x S')
        (fun z hz => (helts z hz).2.1)]

/-- C9 (witness): round trip at `S = ["a", "bc"]` with the sparv defaults
`delimiter = affix = "|"`. -/
theorem decode_encodeSet_witness :
    decodeSet (encodeSet [['a'], ['b', 'c']] '|' '|') '|' '|' =
      some [['a'], ['b', 'c']] :=
  decode_encodeSet [['a'], ['b', 'c']] '|' '|' (by decide) (by decide)

/-- C9 (counterexample): the round trip fails for the empty sequence — the
spec-side encoder emits the bare `affix+affix` marker, which the source's
decode idiom turns into `[""]`, not `[]` — and, with the sparv default
`delimiter = affix = "|"`, also for a sequence whose first element is the
empty string, because `str.strip` removes ALL boundary affix characters
including the delimiter adjacent to the edge. -/
theorem decode_encodeSet_cex :
    decodeSet (encodeSet [] '|' '|') '|' '|' ≠ some [] ∧
    decodeSet (encodeSet [[], ['a']] '|' '|') '|' '|' ≠ some [[], ['a']] := by
  refine ⟨by decide, by decide⟩

/-- Helper for C10: the count of a child index `i` in one filtered group is
1 or 0 according to whether the pair `(i, children[i])` satisfies the
group's predicate. -/
theorem count_filter_enum_fst (children : List Span) (q : Nat × Span → Bool)
    (i : Nat) (hi : i < children.length) :
    ((children.enum.filter q).map (fun ic => ic.1)).count i =
      if q (i, children.getD i ⟨0, 0⟩) then 1 else 0 := by
  have hci : children[i]? = some (children.getD i ⟨0, 0⟩) := by
    rw [List.getD_eq_getElem?_getD]
    cases hg : children[i]? with
    | none =>
      rw [List.getElem?_eq_none_iff] at hg
      omega
    | some v => rfl
  have h2 : children.enum.map (fun ic : Nat × Span => ic.1) =
      List.range children.length := List.enum_map_fst children
  have h1 := (List.filter_sublist (l := children.enum) (p := q)).map
    (fun ic : Nat × Span => ic.1)
  rw [h2] at h1
  have hnodup := (List.nodup_range children.length).sublist h1
  by_cases hq : q (i, children.getD i ⟨0, 0⟩)
  · rw [if_pos hq]
    refine List.count_eq_one_of_mem hnodup ?_
    refine List.mem_map.mpr ⟨(i, children.getD i ⟨0, 0⟩), ?_, rfl⟩
    exact List.mem_filter.mpr ⟨List.mem_enum_iff_getElem?.mpr hci, hq⟩
  · rw [if_neg hq]
    rw [List.count_eq_zero]
    intro hmem
    obtain ⟨⟨j, s⟩, hjs, hji⟩ := List.mem_map.mp hmem
    obtain ⟨henum, hqs⟩ := List.mem_filter.mp hjs
    have hj : j = i := hji
    subst hj
    have hs := List.mem_enum_iff_getElem?.mp henum
    rw [hci] at hs
    have hsc : s = children.getD j ⟨0, 0⟩ := by
      injection hs with h
      exact h.symm
    rw [hsc] at hqs
    exact hq hqs

/-- Helper for C10: a sum of zeros over an index range is zero. -/
theorem sum_map_range_zero (f : Nat → Nat) (m : Nat)
    (h : ∀ j < m, f j = 0) : ((List.range m).map f).sum = 0 := by
  induction m with
  | zero => rfl
  | succ m ih =>
    rw [List.range_succ, List.map_append, List.sum_append]
    rw [ih (fun j hj => h j (by omega))]
    simp [h m (by omega)]

/-- Helper for C10: a sum of a one-point indicator over an index range
containing the point is one. -/
theorem sum_map_range_indicator (f : Nat → Nat) (m j0 : Nat) (hj : j0 < m)
    (hf : ∀ j, f j = if j = j0 then 1 else 0) :
    ((List.range m).map f).sum = 1 := by
  induction m with
  | zero => omega
  | succ m ih =>
    rw [List.range_succ, List.map_append, List.sum_append]
    by_cases hm : j0 = m
    · rw [sum_map_range_zero f m (fun j hjm => by rw [hf j]; simp; omega)]
      simp [hf m, hm]
    · rw [ih (by omega)]
      simp [hf m, hm]
      intro h
      exact absurd h.symm hm

/-- C10 (confirmed): `maltparse` appends the orphan tokens as one extra
final sentence group, and every token index below the token count appears in
exactly one of the submitted groups (the per-sentence groups plus the final
orphan group). -/
theorem maltSentences_partition (parents children : List Span) (i : Nat)
    (hi : i < children.length) :
    ((maltSentences parents children).flatten).count i = 1 := by
  rw [maltSentences, groupChildren, List.flatten_append, List.count_append]
  rw [List.flatten_cons, List.flatten_nil, List.append_nil]
  rw [List.count_flatten, List.map_map]
  cases ha : assignParent parents (children.getD i ⟨0, 0⟩) with
  | some j0 =>
    have hj0 : j0 < parents.length := by
      rw [assignParent] at ha
      exact (List.findIdx?_eq_some_iff_findIdx_eq.mp ha).1
    have hsum : ((List.range parents.length).map
        (List.count i ∘ fun j => ((children.enum.filter
          (fun ic => assignParent parents ic.2 = some j)).map
            (fun ic => ic.1)))).sum = 1 := by
      refine sum_map_range_indicator _ parents.length j0 hj0 (fun j => ?_)
      rw [Function.comp_apply,
        count_filter_enum_fst children _ i hi, ha]
      by_cases hjj : j = j0
      · simp [hjj]
      · simp [hjj]
        intro h
        exact absurd h.symm hjj
    rw [hsum, count_filter_enum_fst children _ i hi, ha]
    simp
  | none =>
    have hsum : ((List.range parents.length).map
        (List.count i ∘ fun j => ((children.enum.filter
          (fun ic => assignParent parents ic.2 = some j)).map
            (fun ic => ic.1)))).sum = 0 := by
      refine sum_map_range_zero _ parents.length (fun j hj => ?_)
      rw [Function.comp_apply,
        count_filter_enum_fst children _ i hi, ha]
      simp
    rw [hsum, count_filter_enum_fst children _ i hi, ha]
    simp

/-- C10 (witness): two parents covering four of five children (child 2 and
child 4 are orphans): every child index appears exactly once across the
submitted groups. -/
theorem maltSentences_partition_witness :
    (2 : Nat) < ([⟨0, 2⟩, ⟨2, 4⟩, ⟨9, 9⟩, ⟨3, 4⟩, ⟨7, 8⟩] : List Span).length ∧
    ((maltSentences [⟨0, 4⟩, ⟨4, 6⟩]
      [⟨0, 2⟩, ⟨2, 4⟩, ⟨9, 9⟩, ⟨3, 4⟩, ⟨7, 8⟩]).flatten).count 2 = 1 :=
  ⟨by decide, maltSentences_partition [⟨0, 4⟩, ⟨4, 6⟩]
    [⟨0, 2⟩, ⟨2, 4⟩, ⟨9, 9⟩, ⟨3, 4⟩, ⟨7, 8⟩] 2 (by decide)⟩
